import Mathlib

/- Shallow embedding of the chess rules engine of this repository
   (src/modules/board.py and src/modules/move.py).

   Conventions of the embedding:
   * Python's two-character piece strings ('--', 'wp', 'wN', ..., 'bK') are
     modelled by the thirteen-constructor inductive type `Piece`; `pieceToStr`
     gives back the exact source string, and `pcolor`/`pkind` are the
     subscripts piece[0] and piece[1] used throughout board.py.
   * Board coordinates are `Int`, as Python integers (directions may be -1).
     Python list reads/writes `l[i]` are `lget`/`lset`; all reachable accesses
     in board.py are in range, so the out-of-range default never matters.
   * `halfmove_clock` is a rational number: board.py mixes the int 0 with
     float steps of 0.5, and every such float is exact, so `ℚ` models the
     Python arithmetic exactly.
   * Python functions that can raise (fen parsing with int()) return Option.
   * Mutation of `self` becomes explicit state passing: methods that mutate
     the board take and return a `Board` value.  `get_legal_moves` both
     mutates the board (through the tentative make/undo pairs it performs)
     and returns the move list, hence its type `Board → Board × List Move`.
-/

set_option maxHeartbeats 4000000
set_option maxRecDepth 4000000

namespace Chess

/-- Python `l[i]` read with a default; board.py only reads in range
    (negative wrap-around indexing is never reached). -/
def lget {α : Type} (l : List α) (i : Int) (d : α) : α :=
  if 0 ≤ i then l.getD i.toNat d else d

/-- Python `l[i] = v`; out of range is unreachable in board.py and is a no-op here. -/
def lset {α : Type} (l : List α) (i : Int) (v : α) : List α :=
  if 0 ≤ i then l.set i.toNat v else l

/-- The space character (Char.ofNat 32). -/
def spc : Char := Char.ofNat 32

/-- Prepend a character to the first part of a split result (the result of
    splitting the rest of the string); an empty result stands for no parts
    yet. -/
def consHead (c : Char) : List (List Char) → List (List Char)
  | h :: t => (c :: h) :: t
  | [] => [[c]]

/-- Python `str.split('/')`: split at every separator, keeping empty parts. -/
def splitChar (sep : Char) : List Char → List (List Char)
  | [] => [[]]
  | c :: rest =>
    if c = sep then [] :: splitChar sep rest
    else consHead c (splitChar sep rest)

/-- Python `str.split()` with no argument: split on runs of whitespace and
    drop empty parts.  The strings handled here only ever contain the plain
    space character, which is the only whitespace modelled. -/
def pySplitWs : List Char → List (List Char)
  | [] => []
  | c :: rest =>
    let res := pySplitWs rest
    if c = spc then res
    else
      match rest with
      | [] => [[c]]
      | c2 :: _ =>
        if c2 = spc then [c] :: res
        else consHead c res

/-- Python `sep.join(parts)` on character lists. -/
def joinSep (sep : Char) : List (List Char) → List Char
  | [] => []
  | p :: rest =>
    match rest with
    | [] => p
    | _ => p ++ sep :: joinSep sep rest

/-- The character for the decimal digit n (n ≤ 9). -/
def digitChar (n : Nat) : Char := Char.ofNat (48 + n)

/-- Helper for decimal rendering, structurally recursive on a fuel argument
    that always suffices (fuel is the number itself plus one). -/
def natDigitsAux : Nat → Nat → List Char → List Char
  | 0, _, acc => acc
  | fuel + 1, n, acc =>
    if n < 10 then digitChar n :: acc
    else natDigitsAux fuel (n / 10) (digitChar (n % 10) :: acc)

/-- Python `str(n)` for a natural number. -/
def natDigits (n : Nat) : List Char := natDigitsAux (n + 1) n []

/-- Python `str(i)` for an integer. -/
def intRepr (i : Int) : List Char :=
  if i < 0 then '-' :: natDigits i.natAbs else natDigits i.toNat

/-- Value of a digit character. -/
def digToNat (c : Char) : Option Nat :=
  if c.isDigit then some (c.toNat - 48) else none

/-- Accumulating decimal parse of a digit run. -/
def digitsValAux : List Char → Nat → Option Nat
  | [], acc => some acc
  | c :: rest, acc =>
    match digToNat c with
    | some d => digitsValAux rest (acc * 10 + d)
    | none => none

/-- Python `int(s)`: optional minus sign followed by a nonempty digit run
    (the sign/underscore/whitespace corner cases of Python's int() are never
    exercised by the strings handled here).  Failure models the ValueError. -/
def pyInt : List Char → Option Int
  | [] => none
  | c :: rest =>
    if c = '-' then
      match rest with
      | [] => none
      | _ => (digitsValAux rest 0).map (fun n => -(n : Int))
    else (digitsValAux (c :: rest) 0).map (fun n => (n : Int))

/-- Rational addition in a form the kernel can evaluate (`Rat.add` itself is
    irreducible); `qadd_eq` below proves it is ordinary addition on ℚ. -/
def qadd (a b : ℚ) : ℚ := mkRat (a.num * b.den + b.num * a.den) (a.den * b.den)

/-- Rational subtraction in a form the kernel can evaluate; `qsub_eq` below
    proves it is ordinary subtraction on ℚ. -/
def qsub (a b : ℚ) : ℚ := mkRat (a.num * b.den - b.num * a.den) (a.den * b.den)

/-- The Python float 0.5 (exactly one half); `qhalf_eq` below proves it. -/
def qhalf : ℚ := mkRat 1 2

/-- The thirteen square contents of board.py: the empty square '--' and the
    twelve piece strings. -/
inductive Piece
  | e | wp | wN | wB | wR | wQ | wK | bp | bN | bB | bR | bQ | bK
deriving DecidableEq, Repr, Inhabited

/-- The exact Python string a `Piece` stands for. -/
def pieceToStr : Piece → String
  | .e => "--"
  | .wp => "wp" | .wN => "wN" | .wB => "wB" | .wR => "wR" | .wQ => "wQ" | .wK => "wK"
  | .bp => "bp" | .bN => "bN" | .bB => "bB" | .bR => "bR" | .bQ => "bQ" | .bK => "bK"

/-- piece[0] in board.py: the colour character ('-' for the empty square). -/
def pcolor : Piece → Char
  | .e => '-'
  | .wp | .wN | .wB | .wR | .wQ | .wK => 'w'
  | .bp | .bN | .bB | .bR | .bQ | .bK => 'b'

/-- piece[1] in board.py: the kind character ('-' for the empty square). -/
def pkind : Piece → Char
  | .e => '-'
  | .wp | .bp => 'p'
  | .wN | .bN => 'N'
  | .wB | .bB => 'B'
  | .wR | .bR => 'R'
  | .wQ | .bQ => 'Q'
  | .wK | .bK => 'K'

/-- The fen_symbols dictionary of fen_to_board; `.get(char, '--')` maps an
    unrecognized letter to the empty square. -/
def fen_symbols (c : Char) : Piece :=
  if c = 'r' then .bR else if c = 'n' then .bN else if c = 'b' then .bB
  else if c = 'q' then .bQ else if c = 'k' then .bK else if c = 'p' then .bp
  else if c = 'R' then .wR else if c = 'N' then .wN else if c = 'B' then .wB
  else if c = 'Q' then .wQ else if c = 'K' then .wK else if c = 'P' then .wp
  else .e

/-- The piece_to_fen dictionary of board_to_fen, as the characters contributed
    to the FEN row (the empty square contributes nothing). -/
def piece_to_fen : Piece → List Char
  | .e => []
  | .bR => ['r'] | .bN => ['n'] | .bB => ['b'] | .bQ => ['q'] | .bK => ['k'] | .bp => ['p']
  | .wR => ['R'] | .wN => ['N'] | .wB => ['B'] | .wQ => ['Q'] | .wK => ['K'] | .wp => ['P']

/-- `move.piece_moved[0] + move.promoted_piece` in _make_psuedo_legal_move:
    the promoted piece from its colour and kind characters.  Only the pairs
    produced by the pawn generator (colour 'w'/'b', kind in Q N R B) occur. -/
def mkPiece (color kind : Char) : Piece :=
  if color = 'w' then
    if kind = 'Q' then .wQ else if kind = 'N' then .wN
    else if kind = 'R' then .wR else if kind = 'B' then .wB else .e
  else if color = 'b' then
    if kind = 'Q' then .bQ else if kind = 'N' then .bN
    else if kind = 'R' then .bR else if kind = 'B' then .bB else .e
  else .e

/-- Move.file_map (column index to file letter; other keys are unreachable). -/
def file_map (i : Int) : Char :=
  if i = 0 then 'a' else if i = 1 then 'b' else if i = 2 then 'c'
  else if i = 3 then 'd' else if i = 4 then 'e' else if i = 5 then 'f'
  else if i = 6 then 'g' else if i = 7 then 'h' else '?'

/-- Move.rank_map (row index to rank digit; other keys are unreachable). -/
def rank_map (i : Int) : Char :=
  if i = 7 then '1' else if i = 6 then '2' else if i = 5 then '3'
  else if i = 4 then '4' else if i = 3 then '5' else if i = 2 then '6'
  else if i = 1 then '7' else if i = 0 then '8' else '?'

/-- The Move value object of move.py.  uci and san are the derived strings
    computed at construction time. -/
structure Move where
  start_row : Int
  start_col : Int
  end_row : Int
  end_col : Int
  piece_moved : Piece
  piece_captured : Piece
  is_check : Bool
  is_castling : Bool
  promoted_piece : Option Char
  uci : String
  san : String
deriving DecidableEq, Repr, Inhabited

/-- Move.coordinates_to_uci: promotion renders startFile endFile endRank '='
    letter; otherwise the plain four-character square pair. -/
def coordinates_to_uci (sr sc er ec : Int) (promoted_piece : Option Char) : String :=
  match promoted_piece with
  | some p => String.mk [file_map sc, file_map ec, rank_map er, '=', p]
  | none => String.mk [file_map sc, rank_map sr, file_map ec, rank_map er]

/-- Move.get_san, reading the already-computed uci of the move. -/
def get_san (m : Move) : String :=
  let u := m.uci.data
  let san :=
    if pkind m.piece_moved = 'p' then
      let s0 := match m.promoted_piece with
        | none => u.drop 2
        | some _ => u.drop 1
      if m.piece_captured ≠ .e ∨ m.start_col ≠ m.end_col then u.take 1 ++ 'x' :: s0 else s0
    else if m.is_castling then
      (if m.start_col < m.end_col then ['O', '-', 'O'] else ['O', '-', 'O', '-', 'O'])
    else
      let s0 := pkind m.piece_moved :: u.drop 2
      if m.piece_captured ≠ .e then s0.take 1 ++ 'x' :: s0.drop 1 else s0
  String.mk (if m.is_check then san ++ ['+'] else san)

/-- board_array[r][c]. -/
def bget (arr : List (List Piece)) (r c : Int) : Piece :=
  lget (lget arr r []) c .e

/-- board_array[r][c] = v. -/
def bset (arr : List (List Piece)) (r c : Int) (v : Piece) : List (List Piece) :=
  lset arr r (lset (lget arr r []) c v)

/-- Move.__init__: capture the moved/captured pieces from the board snapshot
    and derive uci and san. -/
def mkMove (arr : List (List Piece)) (sr sc er ec : Int) (promoted_piece : Option Char)
    (is_castling : Bool) (is_check : Bool) : Move :=
  let m : Move :=
    { start_row := sr, start_col := sc, end_row := er, end_col := ec,
      piece_moved := bget arr sr sc, piece_captured := bget arr er ec,
      is_check := is_check, is_castling := is_castling,
      promoted_piece := promoted_piece,
      uci := coordinates_to_uci sr sc er ec promoted_piece, san := "" }
  { m with san := get_san m }

/-- Move.__eq__: equality is the uci string alone. -/
def move_eq (a b : Move) : Bool := a.uci == b.uci

/-- The Castling_Rights inner class: the current rights string and its
    full history list. -/
structure Castling_Rights where
  castling_rights_string : String
  castling_rights_log : List String
deriving DecidableEq, Repr, Inhabited

/-- Castling_Rights.__init__. -/
def Castling_Rights.make (s : String) : Castling_Rights :=
  { castling_rights_string := s, castling_rights_log := [s] }

/-- Castling_Rights.has_rights: `side in castling_rights_string` for the
    single-character sides 'K' 'Q' 'k' 'q' it is called with. -/
def Castling_Rights.has_rights (cr : Castling_Rights) (side : Char) : Bool :=
  cr.castling_rights_string.data.contains side

/-- Castling_Rights.remove_rights: `str.replace(side, '')` for each side;
    for the single-character sides used this deletes every occurrence. -/
def Castling_Rights.remove_rights (cr : Castling_Rights) (sides : List Char) : Castling_Rights :=
  sides.foldl
    (fun cr side =>
      { cr with castling_rights_string := String.mk (cr.castling_rights_string.data.filter (fun c => c != side)) })
    cr

/-- Castling_Rights.update: revoke rights according to the moved piece, then
    append the (new) rights string to the history log. -/
def Castling_Rights.update (cr : Castling_Rights) (move : Move) : Castling_Rights :=
  let cr :=
    if move.piece_moved = .wK then cr.remove_rights ['K', 'Q']
    else if move.piece_moved = .bK then cr.remove_rights ['k', 'q']
    else if move.piece_moved = .wR then
      (if move.start_col = 7 then cr.remove_rights ['K']
       else if move.start_col = 0 then cr.remove_rights ['Q']
       else cr)
    else if move.piece_moved = .bR then
      (if move.start_col = 7 then cr.remove_rights ['k']
       else if move.start_col = 0 then cr.remove_rights ['q']
       else cr)
    else cr
  { cr with castling_rights_log := cr.castling_rights_log ++ [cr.castling_rights_string] }

/-- Castling_Rights.undo_castling_rights: pop the log, then restore the
    string from the new last entry when one remains. -/
def Castling_Rights.undo_castling_rights (cr : Castling_Rights) : Castling_Rights :=
  if cr.castling_rights_log ≠ [] then
    let log := cr.castling_rights_log.dropLast
    if log ≠ [] then
      { castling_rights_string := log.getLastD "", castling_rights_log := log }
    else
      { cr with castling_rights_log := log }
  else cr

/-- Castling_Rights.__str__: the rights string, or '-' when it is empty. -/
def Castling_Rights.str (cr : Castling_Rights) : String :=
  if cr.castling_rights_string ≠ "" then cr.castling_rights_string else "-"

/-- One FEN row of fen_to_board: digits extend runs of empty squares,
    letters go through the fen_symbols dictionary. -/
def decRow : List Char → List Piece
  | [] => []
  | c :: rest =>
    if c.isDigit then List.replicate (c.toNat - 48) .e ++ decRow rest
    else fen_symbols c :: decRow rest

/-- The Board aggregate of board.py.  The moveFunctions dictionary maps to
    the dispatch function `moveFunction` below. -/
structure Board where
  board_array : List (List Piece)
  white_to_move : Bool
  castling_rights : Castling_Rights
  en_passant_square : Option (Int × Int)
  halfmove_clock : ℚ
  fullmove_number : Int
  move_log : List Move
  fen_log : List String
  white_king_pos : Int × Int
  black_king_pos : Int × Int
  is_checkmate : Bool
  is_draw : Bool
  legal_moves : List Move
deriving DecidableEq, Repr, Inhabited

/-- The en-passant field of fen_to_board: '-' is no target, anything else is
    read as file letter then rank digit (int() on a non-digit raises, hence
    none). -/
def parse_ep (s3 : List Char) : Option (Option (Int × Int)) :=
  if s3 = ['-'] then some none
  else do
    let c0 ← s3.get? 0
    let c1 ← s3.get? 1
    let r ← digToNat c1
    pure (some ((8 - (r : Int), (c0.toNat : Int) - 97) : Int × Int))

/-- Board.fen_to_board.  The Option models the exceptions a malformed FEN can
    raise (an IndexError on a missing field, a ValueError from int()); every
    other input is accepted without validation, exactly as in the source. -/
def fen_to_board (fen : String) :
    Option (List (List Piece) × Bool × Castling_Rights × Option (Int × Int) × Int × Int) := do
  let sections := pySplitWs fen.data
  let piece_placement ← sections.get? 0
  let rows := splitChar '/' piece_placement
  let board := rows.map decRow
  let s1 ← sections.get? 1
  let active_color := s1 = ['w']
  let s2 ← sections.get? 2
  let castling_rights := Castling_Rights.make (String.mk s2)
  let s3 ← sections.get? 3
  let en_passant_target ← parse_ep s3
  let s4 ← sections.get? 4
  let halfmove_clock ← pyInt s4
  let s5 ← sections.get? 5
  let fullmove_number ← pyInt s5
  pure (board, active_color, castling_rights, en_passant_target, halfmove_clock, fullmove_number)

/-- The row loop of board_to_fen, carrying the empty-square run counter. -/
def encRowAux : List Piece → Nat → List Char
  | [], empty_count => if 0 < empty_count then natDigits empty_count else []
  | p :: rest, empty_count =>
    if p = .e then encRowAux rest (empty_count + 1)
    else (if 0 < empty_count then natDigits empty_count else []) ++ piece_to_fen p ++ encRowAux rest 0

/-- One FEN row of board_to_fen. -/
def encRow (row : List Piece) : List Char := encRowAux row 0

/-- The en-passant field of board_to_fen: file letter and rank digit of the
    target square, or '-' when there is none. -/
def encEp : Option (Int × Int) → List Char
  | some rc => [file_map rc.2, rank_map rc.1]
  | none => ['-']

/-- Board.board_to_fen.  str(halfmove_clock // 1) is the floor of the clock;
    when the Python value is an int this is that int (when it is a float
    Python would render a trailing '.0'; no theorem below encodes a
    fractional-history clock, see the halfmove-clock theorems). -/
def board_to_fen (b : Board) : String :=
  let piece_placement := joinSep '/' (b.board_array.map encRow)
  let active_color := if b.white_to_move then ['w'] else ['b']
  let castling_rights := (Castling_Rights.str b.castling_rights).data
  let en_passant_target := encEp b.en_passant_square
  let hm := intRepr (Int.floor b.halfmove_clock)
  let fm := intRepr b.fullmove_number
  String.mk (joinSep spc [piece_placement, active_color, castling_rights, en_passant_target, hm, fm])

/-- The board cells in row-major order with their indices, as the nested
    loops of get_king_locations visit them. -/
def cells (arr : List (List Piece)) : List (Int × Int × Piece) :=
  (arr.enum.map (fun rp => rp.2.enum.map (fun cp => ((rp.1 : Int), (cp.1 : Int), cp.2)))).flatten

/-- The scan of get_king_locations: store each king position found
    (overwriting), and return as soon as both are present.  `none` models
    falling off the loop, where board.py prints an error and calls
    sys.exit(). -/
def king_scan : List (Int × Int × Piece) → Option (Int × Int) → Option (Int × Int) →
    Option ((Int × Int) × (Int × Int))
  | [], _, _ => none
  | (r, c, p) :: rest, wk, bk =>
    if p = .wK ∨ p = .bK then
      let wk := if p = .wK then some (r, c) else wk
      let bk := if p = .bK then some (r, c) else bk
      match wk, bk with
      | some w, some bl => some (w, bl)
      | _, _ => king_scan rest wk bk
    else king_scan rest wk bk

/-- Board.get_king_locations, with the sys.exit branch as `none`. -/
def get_king_locations_opt (arr : List (List Piece)) : Option ((Int × Int) × (Int × Int)) :=
  king_scan (cells arr) none none

/-- Board.get_king_locations as used inside make/undo, which board.py only
    reaches on boards that do have both kings; the default is unreachable
    there. -/
def get_king_locations (arr : List (List Piece)) : (Int × Int) × (Int × Int) :=
  (get_king_locations_opt arr).getD ((0, 0), (0, 0))

/-- Board.get_pawn_moves. -/
def get_pawn_moves (b : Board) (row col : Int) (moves : List Move) : List Move :=
  let arr := b.board_array
  let color := pcolor (bget arr row col)
  let direction : Int := if color = 'w' then -1 else 1
  let moves :=
    if 1 ≤ row + direction ∧ row + direction < 8 then
      if bget arr (row + direction) col = .e then
        let moves :=
          if (color = 'w' ∧ row - 1 = 0) ∨ (color = 'b' ∧ row + 1 = 7) then
            ['Q', 'N', 'R', 'B'].foldl (fun moves piece =>
              moves ++ [mkMove arr row col (row + direction) col (some piece) false false]) moves
          else moves ++ [mkMove arr row col (row + direction) col none false false]
        if ((row = 6 ∧ color = 'w') ∨ (row = 1 ∧ color = 'b')) ∧
            bget arr (row + 2 * direction) col = .e then
          moves ++ [mkMove arr row col (row + 2 * direction) col none false false]
        else moves
      else moves
    else moves
  ([-1, 1] : List Int).foldl (fun moves d_col =>
    if 0 ≤ col + d_col ∧ col + d_col < 8 ∧ 0 ≤ row + direction ∧ row + direction < 8 then
      if pcolor (bget arr (row + direction) (col + d_col)) = (if color = 'w' then 'b' else 'w') then
        if (color = 'w' ∧ row - 1 = 0) ∨ (color = 'b' ∧ row + 1 = 7) then
          ['Q', 'N', 'R', 'B'].foldl (fun moves piece =>
            moves ++ [mkMove arr row col (row + direction) (col + d_col) (some piece) false false]) moves
        else moves ++ [mkMove arr row col (row + direction) (col + d_col) none false false]
      else if some (row + direction, col + d_col) = b.en_passant_square then
        moves ++ [mkMove arr row col (row + direction) (col + d_col) none false false]
      else moves
    else moves) moves

/-- The while loop shared by the rook and bishop generators: walk one
    direction from (row, col); fuel 8 always suffices on the 8x8 board. -/
def slide_walk (arr : List (List Piece)) (row col dr dc : Int) :
    Nat → Int → Int → List Move → List Move
  | 0, _, _, moves => moves
  | fuel + 1, r, c, moves =>
    if 0 ≤ r ∧ r < 8 ∧ 0 ≤ c ∧ c < 8 then
      if bget arr r c = .e then
        slide_walk arr row col dr dc fuel (r + dr) (c + dc)
          (moves ++ [mkMove arr row col r c none false false])
      else if pcolor (bget arr r c) ≠ pcolor (bget arr row col) then
        moves ++ [mkMove arr row col r c none false false]
      else moves
    else moves

/-- Board.get_rook_moves. -/
def get_rook_moves (b : Board) (row col : Int) (moves : List Move) : List Move :=
  ([(1, 0), (-1, 0), (0, 1), (0, -1)] : List (Int × Int)).foldl
    (fun moves d => slide_walk b.board_array row col d.1 d.2 8 (row + d.1) (col + d.2) moves) moves

/-- Board.get_bishop_moves. -/
def get_bishop_moves (b : Board) (row col : Int) (moves : List Move) : List Move :=
  ([(1, 1), (-1, 1), (1, -1), (-1, -1)] : List (Int × Int)).foldl
    (fun moves d => slide_walk b.board_array row col d.1 d.2 8 (row + d.1) (col + d.2) moves) moves

/-- Board.get_queen_moves: rook moves then bishop moves. -/
def get_queen_moves (b : Board) (row col : Int) (moves : List Move) : List Move :=
  get_bishop_moves b row col (get_rook_moves b row col moves)

/-- Board.get_knight_moves. -/
def get_knight_moves (b : Board) (row col : Int) (moves : List Move) : List Move :=
  ([(2, 1), (2, -1), (-2, 1), (-2, -1), (1, 2), (1, -2), (-1, 2), (-1, -2)] : List (Int × Int)).foldl
    (fun moves d =>
      if 0 ≤ row + d.1 ∧ row + d.1 < 8 ∧ 0 ≤ col + d.2 ∧ col + d.2 < 8 then
        if bget b.board_array (row + d.1) (col + d.2) = .e ∨
            pcolor (bget b.board_array (row + d.1) (col + d.2)) ≠ pcolor (bget b.board_array row col) then
          moves ++ [mkMove b.board_array row col (row + d.1) (col + d.2) none false false]
        else moves
      else moves) moves

/-- Board.get_king_moves (the castling pass is a separate function). -/
def get_king_moves (b : Board) (row col : Int) (moves : List Move) : List Move :=
  ([(1, 0), (-1, 0), (0, 1), (0, -1), (1, 1), (1, -1), (-1, 1), (-1, -1)] : List (Int × Int)).foldl
    (fun moves d =>
      if 0 ≤ row + d.1 ∧ row + d.1 < 8 ∧ 0 ≤ col + d.2 ∧ col + d.2 < 8 then
        if bget b.board_array (row + d.1) (col + d.2) = .e ∨
            pcolor (bget b.board_array (row + d.1) (col + d.2)) ≠ pcolor (bget b.board_array row col) then
          moves ++ [mkMove b.board_array row col (row + d.1) (col + d.2) none false false]
        else moves
      else moves) moves

/-- The moveFunctions dictionary: dispatch on the piece-kind character. -/
def moveFunction (b : Board) (piece_type : Char) (row col : Int) (moves : List Move) : List Move :=
  if piece_type = 'p' then get_pawn_moves b row col moves
  else if piece_type = 'R' then get_rook_moves b row col moves
  else if piece_type = 'N' then get_knight_moves b row col moves
  else if piece_type = 'B' then get_bishop_moves b row col moves
  else if piece_type = 'Q' then get_queen_moves b row col moves
  else if piece_type = 'K' then get_king_moves b row col moves
  else moves

/-- Board.get_psuedo_legal_moves: every piece of the side to move feeds its
    generator; castling is generated elsewhere. -/
def get_psuedo_legal_moves (b : Board) : List Move :=
  (List.range 8).foldl (fun moves row =>
    (List.range 8).foldl (fun moves col =>
      if bget b.board_array (row : Int) (col : Int) ≠ .e then
        if (pcolor (bget b.board_array (row : Int) (col : Int)) = 'w' ∧ b.white_to_move) ∨
            (pcolor (bget b.board_array (row : Int) (col : Int)) = 'b' ∧ ¬ b.white_to_move) then
          moveFunction b (pkind (bget b.board_array (row : Int) (col : Int))) (row : Int) (col : Int) moves
        else moves
      else moves) moves) []

/-- Board.square_under_attack: flip the turn, generate the opponent's
    pseudo-legal moves, and look for one ending on the square.  The source
    flips the turn back before returning, so the function is pure. -/
def square_under_attack (b : Board) (row col : Int) : Bool :=
  let opponent_moves := get_psuedo_legal_moves { b with white_to_move := ¬ b.white_to_move }
  opponent_moves.any (fun m => m.end_row == row && m.end_col == col)

/-- Board.in_check. -/
def in_check (b : Board) : Bool :=
  if b.white_to_move then square_under_attack b b.white_king_pos.1 b.white_king_pos.2
  else square_under_attack b b.black_king_pos.1 b.black_king_pos.2

/-- Board.get_castling_moves.  Exactly the source's conditions: current
    check, the rights flag, the two adjacent squares toward the rook empty
    and not attacked.  (On the queenside the square next to the rook,
    column col-3, is never examined.) -/
def get_castling_moves (b : Board) (row col : Int) (moves : List Move) : List Move :=
  if in_check b then moves
  else
    let moves :=
      if (b.white_to_move ∧ b.castling_rights.has_rights 'K') ∨
          (¬ b.white_to_move ∧ b.castling_rights.has_rights 'k') then
        if bget b.board_array row (col + 1) = .e ∧ bget b.board_array row (col + 2) = .e ∧
            ¬ square_under_attack b row (col + 1) ∧ ¬ square_under_attack b row (col + 2) then
          moves ++ [mkMove b.board_array row col row (col + 2) none true false]
        else moves
      else moves
    if (b.white_to_move ∧ b.castling_rights.has_rights 'Q') ∨
        (¬ b.white_to_move ∧ b.castling_rights.has_rights 'q') then
      if bget b.board_array row (col - 1) = .e ∧ bget b.board_array row (col - 2) = .e ∧
          ¬ square_under_attack b row (col - 1) ∧ ¬ square_under_attack b row (col - 2) then
        moves ++ [mkMove b.board_array row col row (col - 2) none true false]
      else moves
    else moves

/-- Board._make_psuedo_legal_move, line for line: push the move, flip the
    turn, bump the fullmove number after Black's ply, remove an
    en-passant-captured pawn, relocate the moved piece, recompute the king
    cache, substitute a promotion piece, update castling rights, and
    relocate the rook on castling. -/
def _make_psuedo_legal_move (b : Board) (move : Move) : Board :=
  let b := { b with move_log := b.move_log ++ [move], white_to_move := ¬ b.white_to_move }
  let b := { b with fullmove_number := b.fullmove_number + (if b.white_to_move then 1 else 0) }
  let b :=
    if pkind move.piece_moved = 'p' ∧ move.start_col ≠ move.end_col ∧ move.piece_captured = .e then
      let a1 := bset b.board_array
        (move.end_row + (if pcolor move.piece_moved = 'w' then 1 else -1)) move.end_col .e
      { b with board_array := a1 }
    else b
  let b := { b with board_array := bset b.board_array move.start_row move.start_col .e }
  let b := { b with board_array := bset b.board_array move.end_row move.end_col move.piece_moved }
  let kp := get_king_locations b.board_array
  let b := { b with white_king_pos := kp.1, black_king_pos := kp.2 }
  let b :=
    match move.promoted_piece with
    | some pc =>
      let a1 := bset b.board_array move.end_row move.end_col (mkPiece (pcolor move.piece_moved) pc)
      { b with board_array := a1 }
    | none => b
  let b := { b with castling_rights := b.castling_rights.update move }
  if move.is_castling then
    if move.start_col < move.end_col then
      let a1 := bset b.board_array move.end_row (move.end_col - 1)
        (bget b.board_array move.end_row (move.end_col + 1))
      let b := { b with board_array := a1 }
      { b with board_array := bset b.board_array move.end_row (move.end_col + 1) .e }
    else if move.end_col < move.start_col then
      let a1 := bset b.board_array move.end_row (move.end_col + 1)
        (bget b.board_array move.end_row (move.end_col - 2))
      let b := { b with board_array := a1 }
      { b with board_array := bset b.board_array move.end_row (move.end_col - 2) .e }
    else b
  else b

/-- The body of Board.undo_move (the caller checks the move log is
    nonempty): pop the move and reverse every effect of the apply;
    in_engine suppresses the user-facing halfmove-clock adjustment. -/
def undo_core (b : Board) (in_engine : Bool) : Board :=
  let move := b.move_log.getLastD default
  let b := { b with move_log := b.move_log.dropLast }
  let b := { b with fullmove_number := b.fullmove_number - (if b.white_to_move then 1 else 0) }
  let hc1 := qsub b.halfmove_clock (if b.halfmove_clock ≠ 0 ∧ ¬ in_engine then qhalf else 0)
  let b := { b with halfmove_clock := hc1 }
  let b := { b with board_array := bset b.board_array move.start_row move.start_col move.piece_moved }
  let b := { b with board_array := bset b.board_array move.end_row move.end_col move.piece_captured }
  let b := { b with white_to_move := ¬ b.white_to_move }
  let b := { b with is_checkmate := false, is_draw := false }
  let kp := get_king_locations b.board_array
  let b := { b with white_king_pos := kp.1, black_king_pos := kp.2 }
  let b := { b with castling_rights := b.castling_rights.undo_castling_rights }
  let b :=
    if pkind move.piece_moved = 'p' ∧ (move.start_row - move.end_row).natAbs = 2 then
      let b := { b with en_passant_square := some (move.end_row, move.end_col) }
      if move.start_col ≠ move.end_col ∧ move.piece_captured = .e then
        let a1 := bset b.board_array
          (move.end_row + (if pcolor move.piece_moved = 'w' then 1 else -1)) move.end_col
          (if pcolor move.piece_moved = 'b' then .wp else .bp)
        { b with board_array := a1 }
      else b
    else { b with en_passant_square := none }
  if move.is_castling then
    if move.start_col < move.end_col then
      let a1 := bset b.board_array move.end_row (move.end_col + 1)
        (bget b.board_array move.end_row (move.end_col - 1))
      let b := { b with board_array := a1 }
      { b with board_array := bset b.board_array move.end_row (move.end_col - 1) .e }
    else if move.end_col < move.start_col then
      let a1 := bset b.board_array move.end_row (move.end_col - 2)
        (bget b.board_array move.end_row (move.end_col + 1))
      let b := { b with board_array := a1 }
      { b with board_array := bset b.board_array move.end_row (move.end_col + 1) .e }
    else b
  else b

/-- Board.undo_move with in_engine=True, the form used transiently inside
    legality testing (it does not pop the position log and does not
    regenerate legal moves, so it does not recurse). -/
def undo_move_t (b : Board) : Board :=
  if b.move_log ≠ [] then undo_core b true else b

/-- One iteration of the candidate-elimination loop of get_legal_moves:
    tentatively apply the move, flip the turn, test whether the mover is
    left in check, flip back, and undo; returns the restored board and the
    check verdict. -/
def tentative_check (b : Board) (m : Move) : Board × Bool :=
  let b1 := _make_psuedo_legal_move b m
  let b1 := { b1 with white_to_move := ¬ b1.white_to_move }
  let check := in_check b1
  let b1 := { b1 with white_to_move := ¬ b1.white_to_move }
  (undo_move_t b1, check)

/-- The candidate-elimination loop of get_legal_moves.  The source iterates
    `for i in range(len(moves)-1, -1, -1)`, so this function receives the
    candidates in reversed order and rebuilds the survivors in their
    original order, threading the board state (the tentative make/undo
    pairs mutate it) through the iterations. -/
def legality_filter : Board → List Move → Board × List Move
  | b, [] => (b, [])
  | b, m :: rest =>
    let s := tentative_check b m
    let p := legality_filter s.1 rest
    (p.1, if s.2 then p.2 else p.2 ++ [m])

/-- The update_is_check pass of get_legal_moves: tentatively apply each
    surviving move, record whether it gives check, finalize its SAN, and
    revert. -/
def update_is_check : Board → List Move → Board × List Move
  | b, [] => (b, [])
  | b, m :: rest =>
    let b1 := _make_psuedo_legal_move b m
    let isc := in_check b1
    let m1 := { m with is_check := isc }
    let m1 := { m1 with san := get_san m1 }
    let b2 := undo_move_t b1
    let p := update_is_check b2 rest
    (p.1, m1 :: p.2)

/-- Board.get_legal_moves.  Besides returning the list it also returns the
    board as the tentative make/undo pairs leave it (in the source these are
    mutations of self; in particular they overwrite en_passant_square). -/
def get_legal_moves (b : Board) : Board × List Move :=
  let moves := get_psuedo_legal_moves b
  let active_king_pos := if b.white_to_move then b.white_king_pos else b.black_king_pos
  let moves := get_castling_moves b active_king_pos.1 active_king_pos.2 moves
  let p := legality_filter b moves.reverse
  update_is_check p.1 p.2

/-- Board.undo_move.  A no-op on an empty move log; a user-facing undo
    additionally pops the position log and regenerates the legal moves. -/
def undo_move (b : Board) (in_engine : Bool) : Board :=
  if b.move_log ≠ [] then
    let b1 := undo_core b in_engine
    if in_engine then b1
    else
      let b2 := { b1 with fen_log := b1.fen_log.dropLast }
      let bl := get_legal_moves b2
      { bl.1 with legal_moves := bl.2 }
  else b

/-- The update_en_passant_square helper local to make_legal_move: record a
    fresh en-passant target only when the move is a double pawn push with an
    enemy pawn beside the destination; clear it otherwise. -/
def update_en_passant_square (b : Board) (move : Move) : Board :=
  if pkind move.piece_moved = 'p' ∧ (move.start_row - move.end_row).natAbs = 2 ∧
      ([move.end_col + 1, move.end_col - 1] : List Int).any (fun col =>
        decide (0 ≤ move.end_row ∧ move.end_row < (b.board_array.length : Int) ∧
          0 ≤ col ∧ col < ((lget b.board_array 0 []).length : Int) ∧
          pcolor (bget b.board_array move.end_row col) ≠ pcolor move.piece_moved ∧
          pkind (bget b.board_array move.end_row col) = 'p')) then
    let ep := some (move.end_row + (if pcolor move.piece_moved = 'w' then 1 else -1), move.start_col)
    { b with en_passant_square := ep }
  else { b with en_passant_square := none }

/-- The remove_extra_details helper local to make_legal_move: keep the first
    four FEN fields. -/
def remove_extra_details (fen : String) : String :=
  let parts := pySplitWs fen.data
  let parts := if 6 ≤ parts.length then parts.take 4 else parts
  String.mk (joinSep spc parts)

/-- The successful-apply body of Board.make_legal_move up to the clock
    update: push the move through _make_psuedo_legal_move, append the reduced
    FEN to the position log, refresh the en-passant target, and write the
    halfmove clock (whose guard, comparing the two-character piece string
    with 'p', is unsatisfiable, so the clock is always zeroed). -/
def make_legal_move_apply_phase (b : Board) (move : Move) : Board :=
  let b1 := _make_psuedo_legal_move b move
  let b1 := { b1 with fen_log := b1.fen_log ++ [remove_extra_details (board_to_fen b1)] }
  let b1 := update_en_passant_square b1 move
  let hc1 :=
    if pkind move.piece_moved ≠ 'p' ∧ move.piece_captured = .e ∧
        (pieceToStr move.piece_moved = "p" ∧ move.start_col = move.end_col) then
      qadd b1.halfmove_clock qhalf
    else 0
  { b1 with halfmove_clock := hc1 }

/-- The end-of-game evaluation of Board.make_legal_move, applied to the
    board holding the freshly recomputed legal-move list: an empty list in
    check is checkmate (the last logged move's SAN gets its + replaced by #),
    an empty list out of check is a draw, and otherwise the 50-clock test
    (always false, since the clock is zeroed on every apply) and threefold
    repetition of a position-log entry set the draw flag. -/
def make_legal_move_finish (b2 : Board) : Board :=
  if b2.legal_moves = [] then
    if in_check b2 then
      let b2 := { b2 with is_checkmate := true }
      let lastm := b2.move_log.getLastD default
      let ml := b2.move_log.dropLast ++ [{ lastm with san := String.mk (lastm.san.data.dropLast ++ ['#']) }]
      { b2 with move_log := ml }
    else { b2 with is_draw := true }
  else if b2.halfmove_clock = 50 ∨ b2.fen_log.any (fun x => 3 ≤ b2.fen_log.count x) then
    { b2 with is_draw := true }
  else b2

/-- Board.make_legal_move.  Applies the move only when it is a member of the
    current legal-move list and the game is not over; otherwise the board is
    returned unchanged (the source method simply falls through). -/
def make_legal_move (b : Board) (move : Move) : Board :=
  if b.legal_moves.any (fun x => move_eq move x) ∧ ¬ b.is_checkmate ∧ b.is_draw = false then
    let move := (b.legal_moves.find? (fun x => move_eq move x)).getD move
    let bl := get_legal_moves (make_legal_move_apply_phase b move)
    make_legal_move_finish { bl.1 with legal_moves := bl.2 }
  else b

/-- Python `s.rfind(' ', 0, stop)`: the largest index below stop holding a
    space, or -1. -/
def pyRfindSpaceBefore (l : List Char) (stop : Nat) : Int :=
  ((List.range stop).filter (fun i => l.getD i '?' == spc)).foldl (fun _ i => (i : Int)) (-1)

/-- The fen_log seed of Board.__init__: the FEN with its last two fields cut
    off via two rfind(' ') calls. -/
def init_fen_log_entry (fen : String) : String :=
  let l := fen.data
  let i1 := pyRfindSpaceBefore l l.length
  let i2 := pyRfindSpaceBefore l (if 0 ≤ i1 then i1.toNat else l.length - 1)
  String.mk (l.take (if 0 ≤ i2 then i2.toNat else l.length - 1))

/-- Board.__init__ from a FEN.  `none` models the int() exceptions of
    fen_to_board and the sys.exit of get_king_locations. -/
def mkBoard (fen : String) : Option Board :=
  match fen_to_board fen with
  | none => none
  | some (arr, wtm, cr, ep, hc, fn) =>
    match get_king_locations_opt arr with
    | none => none
    | some kings =>
      let b : Board :=
        { board_array := arr, white_to_move := wtm, castling_rights := cr,
          en_passant_square := ep, halfmove_clock := (hc : ℚ), fullmove_number := fn,
          move_log := [], fen_log := [], white_king_pos := kings.1, black_king_pos := kings.2,
          is_checkmate := false, is_draw := false, legal_moves := [] }
      let b := { b with fen_log := [init_fen_log_entry (board_to_fen b)] }
      let bl := get_legal_moves b
      some { bl.1 with legal_moves := bl.2 }

/-- Exhaustive legal-move-sequence count: a sequence of length d+1 is a
    member of the current legal-move list followed by a sequence of length d
    from the board make_legal_move produces (which holds the recomputed
    legal-move list); at depth 1 the count is the length of the current
    list. -/
def perft (b : Board) : Nat → Nat
  | 0 => 1
  | 1 => b.legal_moves.length
  | d + 1 => (b.legal_moves.map (fun m => perft (make_legal_move b m) d)).sum

/-- The standard initial position (the default argument of Board.__init__). -/
def startFEN : String := "rnbqkbnr/pppppppp/8/8/8/8/PPPPPPPP/RNBQKBNR w KQkq - 0 1"

/-- Board.__eq__: two boards are equal exactly when their encoded FEN strings
    are equal. -/
def board_eq (a b : Board) : Bool := board_to_fen a == board_to_fen b

/-- The Board the default Board() constructor builds. -/
def startBoard : Board := (mkBoard startFEN).getD default

/-- A move from a2 to a5, which is never a legal chess move from the initial
    position. -/
def mBad : Move := mkMove startBoard.board_array 6 0 3 0 none false false

/-- The initial position with a halfmove clock of 5. -/
def fen5 : String := "rnbqkbnr/pppppppp/8/8/8/8/PPPPPPPP/RNBQKBNR w KQkq - 5 3"

/-- The board built from fen5. -/
def b5 : Board := (mkBoard fen5).getD default

/-- The knight move g1-f3 on b5 (neither a capture nor a pawn move). -/
def mv5 : Move := mkMove b5.board_array 7 6 5 5 none false false

/-- The initial position with the white queenside bishop and queen removed:
    c1 and d1 are empty but the knight still stands on b1. -/
def fenC5 : String := "rnbqkbnr/pppppppp/8/8/8/8/PPPPPPPP/RN2KBNR w KQkq - 0 1"

/-- The board built from fenC5. -/
def bC5 : Board := (mkBoard fenC5).getD default

/-- The well-formedness invariant of a Castling_Rights value that board.py
    maintains: the history log is nonempty and its last entry is the current
    rights string (Castling_Rights.__init__ establishes it, update and
    undo_castling_rights preserve it). -/
def cr_wf (cr : Castling_Rights) : Prop :=
  cr.castling_rights_log ≠ [] ∧ cr.castling_rights_log.getLast? = some cr.castling_rights_string

/-- A Board whose castling-rights string is the empty string (no rights),
    as undo_castling_rights can produce and as Board accepts: its other
    fields are an empty 8x8 grid and the usual initial values. -/
def bC4x : Board :=
  { board_array := List.replicate 8 (List.replicate 8 Piece.e),
    white_to_move := true,
    castling_rights := { castling_rights_string := "", castling_rights_log := [""] },
    en_passant_square := none,
    halfmove_clock := 0,
    fullmove_number := 1,
    move_log := [], fen_log := [],
    white_king_pos := (7, 4), black_king_pos := (0, 4),
    is_checkmate := false, is_draw := false, legal_moves := [] }

/-- The initial chess position written as a Board literal, with full castling
    rights and an en-passant target square set on e6 (row 2, column 4). -/
def bC4w : Board :=
  { board_array :=
      [[.bR, .bN, .bB, .bQ, .bK, .bB, .bN, .bR],
       [.bp, .bp, .bp, .bp, .bp, .bp, .bp, .bp],
       [.e, .e, .e, .e, .e, .e, .e, .e],
       [.e, .e, .e, .e, .e, .e, .e, .e],
       [.e, .e, .e, .e, .e, .e, .e, .e],
       [.e, .e, .e, .e, .e, .e, .e, .e],
       [.wp, .wp, .wp, .wp, .wp, .wp, .wp, .wp],
       [.wR, .wN, .wB, .wQ, .wK, .wB, .wN, .wR]],
    white_to_move := true,
    castling_rights := { castling_rights_string := "KQkq", castling_rights_log := ["KQkq"] },
    en_passant_square := some (2, 4),
    halfmove_clock := 0,
    fullmove_number := 1,
    move_log := [], fen_log := [],
    white_king_pos := (7, 4), black_king_pos := (0, 4),
    is_checkmate := false, is_draw := false, legal_moves := [] }

/-- Decidability of equality on the decoded-FEN component tuple (the
    instance the automatic search misses for the six-fold product). -/
instance fenTupleDecEq :
    DecidableEq (List (List Piece) × Bool × Castling_Rights × Option (Int × Int) × Int × Int) :=
  instDecidableEqProd

/- ===================  theorems  =================== -/

theorem qadd_eq (a b : ℚ) : qadd a b = a + b := (Rat.add_def' a b).symm

theorem qsub_eq (a b : ℚ) : qsub a b = a - b := (Rat.sub_def' a b).symm

theorem qhalf_eq : qhalf = (1 : ℚ) / 2 := by
  rw [qhalf, Rat.mkRat_eq_divInt, Rat.divInt_eq_div]; norm_num

/-- Claim C10: Board equality (Board.__eq__) holds exactly when the two
    boards' full encoded FEN strings (which include the halfmove clock and
    fullmove number fields) are equal; and the move log, position log and
    cached legal-move list never influence the encoded FEN, hence never
    influence equality, so two boards differing only in those histories
    compare equal. -/
theorem C10_board_eq_is_fen_eq : ∀ b1 b2 : Board,
    (board_eq b1 b2 = true ↔ board_to_fen b1 = board_to_fen b2) ∧
    (∀ (ml lm : List Move) (fl : List String),
      board_to_fen { b1 with move_log := ml, fen_log := fl, legal_moves := lm } = board_to_fen b1) ∧
    (∀ (ml lm : List Move) (fl : List String),
      board_eq { b1 with move_log := ml, fen_log := fl, legal_moves := lm } b1 = true) :=
  fun b1 _ =>
    ⟨beq_iff_eq, fun _ _ _ => rfl, fun _ _ _ => beq_iff_eq.mpr rfl⟩

/-- Claim C6: a move that is not a member of the current legal-move list, or
    submitted when the game is already over (checkmate or draw), leaves every
    component of the board unchanged: make_legal_move returns the board as it
    was, which is the observable rejection the callers test for. -/
theorem C6_illegal_move_is_noop (b : Board) (m : Move)
    (h : (∀ x ∈ b.legal_moves, x.uci ≠ m.uci) ∨ b.is_checkmate = true ∨ b.is_draw = true) :
    make_legal_move b m = b := by
  unfold make_legal_move
  rw [if_neg]
  rintro ⟨hmem, hcm, hdraw⟩
  rcases h with h | h | h
  · rw [List.any_eq_true] at hmem
    obtain ⟨x, hx, hbeq⟩ := hmem
    have hx2 : m.uci = x.uci := by simpa [move_eq] using hbeq
    exact h x hx hx2.symm
  · exact hcm h
  · rw [h] at hdraw
    exact absurd hdraw (by decide)

/-- Witness for C6 at a concrete input: submitting a2-a5 on the initial
    board is a no-op. -/
theorem C6_illegal_move_is_noop_witness : make_legal_move startBoard mBad = startBoard :=
  C6_illegal_move_is_noop startBoard mBad (Or.inl (by decide))

/-- Claim C1 (code bug): applying the legal move g1f3 on a board whose
    halfmove clock is 5 and then performing one user-facing undo yields a
    board whose FEN is NOT the pre-move FEN: the halfmove clock comes back
    as 0 instead of 5 (make_legal_move's clock guard is unsatisfiable, so
    the clock is zeroed on every apply, and undo_move only subtracts 0.5
    from a nonzero clock, leaving the zeroed clock at 0). -/
theorem C1_apply_undo_breaks_fen :
    board_to_fen b5 = fen5 ∧
    b5.legal_moves.any (fun x => move_eq mv5 x) = true ∧
    board_to_fen (undo_move (make_legal_move b5 mv5) false) =
      "rnbqkbnr/pppppppp/8/8/8/8/PPPPPPPP/RNBQKBNR w KQkq - 0 3" ∧
    ("rnbqkbnr/pppppppp/8/8/8/8/PPPPPPPP/RNBQKBNR w KQkq - 0 3" : String) ≠ fen5 := by
  decide

/-- Claim C2 (code bug): the halfmove-clock update on a successful apply.
    g1f3 from b5 is legal, is not a pawn move and captures nothing, yet the
    clock goes from 5 to 0 rather than to 6: the guard at board.py line 423
    compares the two-character piece string to the one-character string 'p'
    (never equal), so the else branch 0 is always taken. -/
theorem C2_halfmove_clock_always_reset :
    b5.halfmove_clock = 5 ∧
    b5.legal_moves.any (fun x => move_eq mv5 x) = true ∧
    pkind mv5.piece_moved ≠ 'p' ∧
    mv5.piece_captured = .e ∧
    (make_legal_move b5 mv5).halfmove_clock = 0 := by
  decide

/-- Claim C5 (code bug): white queenside castling e1c1 is generated by
    get_castling_moves (and survives into the legal-move list) although the
    square b1 — strictly between the king on e1 and the rook on a1 — is
    occupied by a knight; the source checks only the two squares adjacent to
    the king (d1, c1) and never the b-file square.  The remaining conditions
    of the claim hold here: the side to move is not in check and the crossed
    and destination squares are unattacked, so the only violated condition
    is the emptiness of every square strictly between king and rook. -/
theorem C5_castling_generated_through_occupied_b1 :
    bget bC5.board_array 7 1 = .wN ∧
    in_check bC5 = false ∧
    square_under_attack bC5 7 3 = false ∧
    square_under_attack bC5 7 2 = false ∧
    (get_castling_moves bC5 7 4 []).map (fun m => (m.uci, m.is_castling)) = [("e1c1", true)] ∧
    bC5.legal_moves.any (fun m => m.uci == "e1c1") = true := by
  decide

/-- Claim C7, counterexample: a FEN whose piece placement has only 7 ranks
    is decoded successfully (to a 7-row board) instead of failing with a
    format error as the claim requires. -/
theorem C7_counterexample_seven_ranks_accepted :
    (fen_to_board "8/8/8/8/8/8/8 w - - 0 1").map (fun t => t.1.length) = some 7 := by
  decide

/-- Claim C7 as amended: fen_to_board performs no structural validation.
    It fails (constructing nothing) when a required field is missing or a
    numeric field is unparsable, but accepts a placement with other than 8
    ranks, silently maps an unrecognized piece letter to an empty square,
    and treats any side-to-move token other than 'w' as Black; a well-formed
    FEN decodes successfully.  Each behaviour is exhibited on a
    representative input. -/
theorem C7_decoder_accepts_malformed_fens :
    (fen_to_board "8/8/8/8/8/8/8 w - - 0 1").map (fun t => t.1.length) = some 7 ∧
    (fen_to_board "rnbqkbnr/pppppppp/8/8/8/8/PPPPPPPP/RNBQKBNX w KQkq - 0 1").map
      (fun t => bget t.1 7 7) = some .e ∧
    (fen_to_board "rnbqkbnr/pppppppp/8/8/8/8/PPPPPPPP/RNBQKBNR x KQkq - 0 1").map
      (fun t => t.2.1) = some false ∧
    (fen_to_board "8/8/8/8/8/8/8/8 w - - x 1").isNone = true ∧
    (fen_to_board "8/8").isNone = true ∧
    (fen_to_board startFEN).isSome = true :=
  ⟨by decide, by decide, by decide, by decide, by decide, by decide⟩

theorem foldl_moves_pres {α : Type} (P : Move → Prop) (f : List Move → α → List Move)
    (hf : ∀ acc a, (∀ m ∈ acc, P m) → ∀ m ∈ f acc a, P m) :
    ∀ (l : List α) (acc : List Move), (∀ m ∈ acc, P m) → ∀ m ∈ l.foldl f acc, P m := by
  intro l
  induction l with
  | nil => exact fun acc h => h
  | cons a t ih => exact fun acc h => ih (f acc a) (hf acc a h)

theorem append_one_pres {P : Move → Prop} {acc : List Move} {x : Move}
    (h : ∀ m ∈ acc, P m) (hx : P x) : ∀ m ∈ acc ++ [x], P m := by
  intro m hm
  rcases List.mem_append.mp hm with h1 | h1
  · exact h m h1
  · rw [List.mem_singleton.mp h1]
    exact hx

theorem mkMove_is_castling (arr : List (List Piece)) (sr sc er ec : Int)
    (promo : Option Char) (cast chk : Bool) :
    (mkMove arr sr sc er ec promo cast chk).is_castling = cast := rfl

theorem get_pawn_moves_no_castling (b : Board) (row col : Int) (acc : List Move)
    (h : ∀ m ∈ acc, m.is_castling = false) :
    ∀ m ∈ get_pawn_moves b row col acc, m.is_castling = false := by
  have pf : ∀ (ac : List Move) (l : List Char) (er ec : Int),
      (∀ m ∈ ac, m.is_castling = false) →
      ∀ m ∈ List.foldl (fun moves piece =>
          moves ++ [mkMove b.board_array row col er ec (some piece) false false]) ac l,
        m.is_castling = false :=
    fun ac l er ec hac =>
      foldl_moves_pres (fun m => m.is_castling = false) _
        (fun ac2 _ hac2 => append_one_pres hac2 rfl) l ac hac
  unfold get_pawn_moves
  refine foldl_moves_pres _ _ ?_ _ _ ?_
  · intro ac a hac m hm
    split_ifs at hm
    all_goals
      first
      | exact hac m hm
      | exact append_one_pres hac rfl m hm
      | exact pf _ _ _ _ hac m hm
  · intro m hm
    split_ifs at hm
    all_goals
      first
      | exact h m hm
      | exact append_one_pres h rfl m hm
      | exact pf _ _ _ _ h m hm
      | exact append_one_pres (append_one_pres h rfl) rfl m hm
      | exact append_one_pres (pf _ _ _ _ h) rfl m hm

theorem slide_walk_no_castling (arr : List (List Piece)) (row col dr dc : Int) :
    ∀ (fuel : Nat) (r c : Int) (acc : List Move),
      (∀ m ∈ acc, m.is_castling = false) →
      ∀ m ∈ slide_walk arr row col dr dc fuel r c acc, m.is_castling = false := by
  intro fuel
  induction fuel with
  | zero =>
    intro r c acc h
    simpa [slide_walk] using h
  | succ n ih =>
    intro r c acc h m hm
    simp only [slide_walk] at hm
    split_ifs at hm
    · exact ih _ _ _ (append_one_pres h rfl) m hm
    · exact append_one_pres h rfl m hm
    · exact h m hm
    · exact h m hm

theorem get_rook_moves_no_castling (b : Board) (row col : Int) (acc : List Move)
    (h : ∀ m ∈ acc, m.is_castling = false) :
    ∀ m ∈ get_rook_moves b row col acc, m.is_castling = false := by
  unfold get_rook_moves
  exact foldl_moves_pres _ _
    (fun ac d hac => slide_walk_no_castling b.board_array row col d.1 d.2 8 _ _ ac hac) _ _ h

theorem get_bishop_moves_no_castling (b : Board) (row col : Int) (acc : List Move)
    (h : ∀ m ∈ acc, m.is_castling = false) :
    ∀ m ∈ get_bishop_moves b row col acc, m.is_castling = false := by
  unfold get_bishop_moves
  exact foldl_moves_pres _ _
    (fun ac d hac => slide_walk_no_castling b.board_array row col d.1 d.2 8 _ _ ac hac) _ _ h

theorem get_queen_moves_no_castling (b : Board) (row col : Int) (acc : List Move)
    (h : ∀ m ∈ acc, m.is_castling = false) :
    ∀ m ∈ get_queen_moves b row col acc, m.is_castling = false := by
  unfold get_queen_moves
  exact get_bishop_moves_no_castling b row col _ (get_rook_moves_no_castling b row col acc h)

theorem get_knight_moves_no_castling (b : Board) (row col : Int) (acc : List Move)
    (h : ∀ m ∈ acc, m.is_castling = false) :
    ∀ m ∈ get_knight_moves b row col acc, m.is_castling = false := by
  unfold get_knight_moves
  refine foldl_moves_pres _ _ ?_ _ _ h
  intro ac d hac m hm
  split_ifs at hm
  · exact append_one_pres hac rfl m hm
  · exact hac m hm
  · exact hac m hm

theorem get_king_moves_no_castling (b : Board) (row col : Int) (acc : List Move)
    (h : ∀ m ∈ acc, m.is_castling = false) :
    ∀ m ∈ get_king_moves b row col acc, m.is_castling = false := by
  unfold get_king_moves
  refine foldl_moves_pres _ _ ?_ _ _ h
  intro ac d hac m hm
  split_ifs at hm
  · exact append_one_pres hac rfl m hm
  · exact hac m hm
  · exact hac m hm

theorem moveFunction_no_castling (b : Board) (pt : Char) (row col : Int) (acc : List Move)
    (h : ∀ m ∈ acc, m.is_castling = false) :
    ∀ m ∈ moveFunction b pt row col acc, m.is_castling = false := by
  unfold moveFunction
  split_ifs
  · exact get_pawn_moves_no_castling b row col acc h
  · exact get_rook_moves_no_castling b row col acc h
  · exact get_knight_moves_no_castling b row col acc h
  · exact get_bishop_moves_no_castling b row col acc h
  · exact get_queen_moves_no_castling b row col acc h
  · exact get_king_moves_no_castling b row col acc h
  · exact h

theorem get_psuedo_legal_moves_no_castling (b : Board) :
    ∀ m ∈ get_psuedo_legal_moves b, m.is_castling = false := by
  unfold get_psuedo_legal_moves
  refine foldl_moves_pres _ _ ?_ _ _ (by simp)
  intro acc row hacc
  refine foldl_moves_pres _ _ ?_ _ _ hacc
  intro ac col hac m hm
  split_ifs at hm
  · exact moveFunction_no_castling _ _ _ _ _ hac m hm
  · exact hac m hm
  · exact hac m hm

/-- Claim C9: no move produced by get_psuedo_legal_moves ever has its
    castling flag set — castling moves are created solely by the separate
    get_castling_moves pass — and square_under_attack examines exactly the
    endpoints of the opponent's non-castling pseudo-legal moves.  In this
    embedding square_under_attack is a total function by construction (it is
    defined without recursion through the castling pass, mirroring the
    structural separation the source enforces to avoid infinite
    recursion). -/
theorem C9_attack_query_sees_no_castling_moves : ∀ b : Board,
    (∀ m ∈ get_psuedo_legal_moves b, m.is_castling = false) ∧
    (∀ row col : Int, square_under_attack b row col = true ↔
      ∃ m ∈ get_psuedo_legal_moves { b with white_to_move := ¬ b.white_to_move },
        m.end_row = row ∧ m.end_col = col) := by
  intro b
  refine ⟨get_psuedo_legal_moves_no_castling b, ?_⟩
  intro row col
  simp [square_under_attack, List.any_eq_true, Bool.and_eq_true, beq_iff_eq]

/-- Witness for C9 at a concrete input: the pawn push a2-a3, a member of the
    initial board's pseudo-legal list, has its castling flag unset. -/
theorem C9_attack_query_sees_no_castling_moves_witness :
    (mkMove startBoard.board_array 6 0 5 0 none false false).is_castling = false :=
  (C9_attack_query_sees_no_castling_moves startBoard).1 _ (by decide)

theorem contains_filter_self (l : List Char) (a : Char) :
    (l.filter (fun c => c != a)).contains a = false := by
  simp [List.contains, List.mem_filter]

theorem contains_filter_other (l : List Char) (a c : Char) (h : c ≠ a) :
    (l.filter (fun x => x != a)).contains c = l.contains c := by
  simp [List.contains, List.mem_filter, h]

theorem remove_rights_log (cr : Castling_Rights) (sides : List Char) :
    (cr.remove_rights sides).castling_rights_log = cr.castling_rights_log := by
  induction sides generalizing cr with
  | nil => rfl
  | cons a t ih => exact ih _

theorem remove_one_data (cr : Castling_Rights) (a : Char) :
    (cr.remove_rights [a]).castling_rights_string.data =
      cr.castling_rights_string.data.filter (fun c => c != a) := rfl

theorem remove_two_data (cr : Castling_Rights) (a b : Char) :
    (cr.remove_rights [a, b]).castling_rights_string.data =
      (cr.castling_rights_string.data.filter (fun c => c != a)).filter (fun c => c != b) := rfl

theorem update_log (cr : Castling_Rights) (m : Move) :
    (cr.update m).castling_rights_log =
      cr.castling_rights_log ++ [(cr.update m).castling_rights_string] := by
  unfold Castling_Rights.update
  split_ifs <;> simp [remove_rights_log]

theorem cr_wf_update (cr : Castling_Rights) (m : Move) : cr_wf (cr.update m) := by
  refine ⟨?_, ?_⟩
  · rw [update_log]; simp
  · rw [update_log, List.getLast?_concat]

theorem undo_update (cr : Castling_Rights) (m : Move) (h : cr_wf cr) :
    (cr.update m).undo_castling_rights = cr := by
  obtain ⟨h1, h2⟩ := h
  unfold Castling_Rights.undo_castling_rights
  rw [if_pos, update_log, List.dropLast_concat, if_pos h1]
  · rcases cr with ⟨s, log⟩
    simp only [List.getLastD_eq_getLast?]
    simp only at h2
    rw [h2]
    rfl
  · rw [update_log]; simp

theorem update_string_sublist (cr : Castling_Rights) (m : Move) :
    (cr.update m).castling_rights_string.data.Sublist cr.castling_rights_string.data := by
  unfold Castling_Rights.update
  split_ifs <;>
    first
    | exact List.Sublist.refl _
    | exact (List.filter_sublist _).trans (List.filter_sublist _)
    | exact List.filter_sublist _

theorem apply_castling_rights (b : Board) (m : Move) :
    (_make_psuedo_legal_move b m).castling_rights = b.castling_rights.update m := by
  unfold _make_psuedo_legal_move
  cases m.promoted_piece <;> split_ifs <;> rfl

theorem apply_move_log (b : Board) (m : Move) :
    (_make_psuedo_legal_move b m).move_log = b.move_log ++ [m] := by
  unfold _make_psuedo_legal_move
  cases m.promoted_piece <;> split_ifs <;> rfl

theorem undo_core_castling_rights (b : Board) (ie : Bool) :
    (undo_core b ie).castling_rights = b.castling_rights.undo_castling_rights := by
  unfold undo_core
  simp only [apply_ite (Board.castling_rights), ite_self]

theorem tentative_check_castling_rights (b : Board) (m : Move) (h : cr_wf b.castling_rights) :
    ((tentative_check b m).1).castling_rights = b.castling_rights := by
  unfold tentative_check undo_move_t
  dsimp only
  rw [if_pos]
  · rw [undo_core_castling_rights]
    dsimp only
    show ((_make_psuedo_legal_move b m).castling_rights).undo_castling_rights = _
    rw [apply_castling_rights, undo_update _ _ h]
  · show (_make_psuedo_legal_move b m).move_log ≠ []
    rw [apply_move_log]
    simp

theorem legality_filter_castling_rights :
    ∀ (ms : List Move) (b : Board), cr_wf b.castling_rights →
      ((legality_filter b ms).1).castling_rights = b.castling_rights := by
  intro ms
  induction ms with
  | nil => intro b _; rfl
  | cons m t ih =>
    intro b h
    have hstep := tentative_check_castling_rights b m h
    have hwf2 : cr_wf (((tentative_check b m).1).castling_rights) := by
      rw [hstep]; exact h
    calc ((legality_filter b (m :: t)).1).castling_rights
        = ((legality_filter ((tentative_check b m).1) t).1).castling_rights := rfl
      _ = _ := by rw [ih _ hwf2, hstep]

theorem check_step_castling_rights (b : Board) (m : Move) (h : cr_wf b.castling_rights) :
    (undo_move_t (_make_psuedo_legal_move b m)).castling_rights = b.castling_rights := by
  unfold undo_move_t
  rw [if_pos]
  · rw [undo_core_castling_rights, apply_castling_rights, undo_update _ _ h]
  · rw [apply_move_log]; simp

theorem update_is_check_castling_rights :
    ∀ (ms : List Move) (b : Board), cr_wf b.castling_rights →
      ((update_is_check b ms).1).castling_rights = b.castling_rights := by
  intro ms
  induction ms with
  | nil => intro b _; rfl
  | cons m t ih =>
    intro b h
    have hstep := check_step_castling_rights b m h
    have hwf2 : cr_wf ((undo_move_t (_make_psuedo_legal_move b m)).castling_rights) := by
      rw [hstep]; exact h
    calc ((update_is_check b (m :: t)).1).castling_rights
        = ((update_is_check (undo_move_t (_make_psuedo_legal_move b m)) t).1).castling_rights := rfl
      _ = _ := by rw [ih _ hwf2, hstep]

theorem get_legal_moves_castling_rights (b : Board) (h : cr_wf b.castling_rights) :
    ((get_legal_moves b).1).castling_rights = b.castling_rights := by
  unfold get_legal_moves
  have h1 := legality_filter_castling_rights
    ((get_castling_moves b (if b.white_to_move then b.white_king_pos else b.black_king_pos).1
      (if b.white_to_move then b.white_king_pos else b.black_king_pos).2
      (get_psuedo_legal_moves b)).reverse) b h
  have hwf1 : cr_wf ((legality_filter b
      ((get_castling_moves b (if b.white_to_move then b.white_king_pos else b.black_king_pos).1
        (if b.white_to_move then b.white_king_pos else b.black_king_pos).2
        (get_psuedo_legal_moves b)).reverse)).1).castling_rights := by
    rw [h1]; exact h
  rw [update_is_check_castling_rights _ _ hwf1, h1]

theorem update_en_passant_square_castling_rights (b : Board) (m : Move) :
    (update_en_passant_square b m).castling_rights = b.castling_rights := by
  unfold update_en_passant_square
  split_ifs <;> rfl

theorem make_phase_castling_rights (b : Board) (m : Move) :
    (make_legal_move_apply_phase b m).castling_rights = b.castling_rights.update m := by
  unfold make_legal_move_apply_phase
  show (update_en_passant_square
      { _make_psuedo_legal_move b m with
        fen_log := (_make_psuedo_legal_move b m).fen_log ++
          [remove_extra_details (board_to_fen (_make_psuedo_legal_move b m))] } m).castling_rights =
    b.castling_rights.update m
  rw [update_en_passant_square_castling_rights]
  show (_make_psuedo_legal_move b m).castling_rights = b.castling_rights.update m
  exact apply_castling_rights b m

theorem make_legal_move_finish_castling_rights (b2 : Board) :
    (make_legal_move_finish b2).castling_rights = b2.castling_rights := by
  unfold make_legal_move_finish
  split_ifs <;> rfl

theorem make_legal_move_castling_rights_sublist (b : Board) (mv : Move)
    (h : cr_wf b.castling_rights) :
    ((make_legal_move b mv).castling_rights).castling_rights_string.data.Sublist
      b.castling_rights.castling_rights_string.data := by
  have key : ∀ m : Move,
      ((get_legal_moves (make_legal_move_apply_phase b m)).1).castling_rights =
        b.castling_rights.update m := by
    intro m
    rw [get_legal_moves_castling_rights, make_phase_castling_rights]
    rw [make_phase_castling_rights]
    exact cr_wf_update b.castling_rights m
  unfold make_legal_move
  by_cases hg : (b.legal_moves.any (fun x => move_eq mv x) ∧ ¬ b.is_checkmate ∧ b.is_draw = false)
  · rw [if_pos hg]
    show ((make_legal_move_finish
        { (get_legal_moves (make_legal_move_apply_phase b
            ((b.legal_moves.find? (fun x => move_eq mv x)).getD mv))).1 with
          legal_moves := (get_legal_moves (make_legal_move_apply_phase b
            ((b.legal_moves.find? (fun x => move_eq mv x)).getD mv))).2 }).castling_rights).castling_rights_string.data.Sublist
      b.castling_rights.castling_rights_string.data
    rw [make_legal_move_finish_castling_rights]
    show (((get_legal_moves (make_legal_move_apply_phase b
        ((b.legal_moves.find? (fun x => move_eq mv x)).getD mv))).1).castling_rights).castling_rights_string.data.Sublist
      b.castling_rights.castling_rights_string.data
    rw [key]
    exact update_string_sublist _ _
  · rw [if_neg hg]

/-- Claim C8: the castling-rights update rule table.  Moving a king revokes
    both of that colour's rights; moving a rook whose start column is the
    corresponding corner file revokes exactly that one right and leaves every
    other right unchanged; a right that is already absent stays absent; the
    string after an update is always a subsequence of the string before it;
    and a full make_legal_move never restores a right either — under the
    log invariant board.py maintains, its rights string is a subsequence of
    the prior one (the tentative make/undo pairs inside the legality filter
    restore the rights exactly, so only the single update of the applied
    move remains). -/
theorem C8_castling_rights_never_grow :
    ∀ (cr : Castling_Rights) (m : Move) (b : Board) (mv : Move),
      (m.piece_moved = .wK →
        (cr.update m).has_rights 'K' = false ∧ (cr.update m).has_rights 'Q' = false) ∧
      (m.piece_moved = .bK →
        (cr.update m).has_rights 'k' = false ∧ (cr.update m).has_rights 'q' = false) ∧
      (m.piece_moved = .wR → m.start_col = 7 →
        (cr.update m).has_rights 'K' = false ∧
        ∀ s : Char, s ≠ 'K' → (cr.update m).has_rights s = cr.has_rights s) ∧
      (m.piece_moved = .wR → m.start_col = 0 →
        (cr.update m).has_rights 'Q' = false ∧
        ∀ s : Char, s ≠ 'Q' → (cr.update m).has_rights s = cr.has_rights s) ∧
      (m.piece_moved = .bR → m.start_col = 7 →
        (cr.update m).has_rights 'k' = false ∧
        ∀ s : Char, s ≠ 'k' → (cr.update m).has_rights s = cr.has_rights s) ∧
      (m.piece_moved = .bR → m.start_col = 0 →
        (cr.update m).has_rights 'q' = false ∧
        ∀ s : Char, s ≠ 'q' → (cr.update m).has_rights s = cr.has_rights s) ∧
      (∀ s : Char, cr.has_rights s = false → (cr.update m).has_rights s = false) ∧
      ((cr.update m).castling_rights_string.data.Sublist cr.castling_rights_string.data) ∧
      (cr_wf b.castling_rights →
        ((make_legal_move b mv).castling_rights).castling_rights_string.data.Sublist
          b.castling_rights.castling_rights_string.data) := by
  intro cr m b mv
  have hsub := update_string_sublist cr m
  have habsent : ∀ s : Char, cr.has_rights s = false → (cr.update m).has_rights s = false := by
    intro s hs
    unfold Castling_Rights.has_rights at hs ⊢
    simp only [List.contains, List.elem_eq_mem, decide_eq_false_iff_not] at hs ⊢
    exact fun hmem => hs (hsub.subset hmem)
  refine ⟨?_, ?_, ?_, ?_, ?_, ?_, habsent, hsub, ?_⟩
  · intro hp
    unfold Castling_Rights.update
    rw [if_pos hp]
    constructor
    · show ((cr.remove_rights ['K', 'Q']).castling_rights_string.data).contains 'K' = false
      rw [remove_two_data]
      rw [contains_filter_other _ _ _ (by decide)]
      exact contains_filter_self _ _
    · show ((cr.remove_rights ['K', 'Q']).castling_rights_string.data).contains 'Q' = false
      rw [remove_two_data]
      exact contains_filter_self _ _
  · intro hp
    unfold Castling_Rights.update
    rw [if_neg (by rw [hp]; decide), if_pos hp]
    constructor
    · show ((cr.remove_rights ['k', 'q']).castling_rights_string.data).contains 'k' = false
      rw [remove_two_data]
      rw [contains_filter_other _ _ _ (by decide)]
      exact contains_filter_self _ _
    · show ((cr.remove_rights ['k', 'q']).castling_rights_string.data).contains 'q' = false
      rw [remove_two_data]
      exact contains_filter_self _ _
  · intro hp hc
    unfold Castling_Rights.update
    rw [if_neg (by rw [hp]; decide), if_neg (by rw [hp]; decide), if_pos hp, if_pos hc]
    constructor
    · show ((cr.remove_rights ['K']).castling_rights_string.data).contains 'K' = false
      rw [remove_one_data]
      exact contains_filter_self _ _
    · intro s hsK
      show ((cr.remove_rights ['K']).castling_rights_string.data).contains s = cr.has_rights s
      rw [remove_one_data]
      exact contains_filter_other _ _ _ hsK
  · intro hp hc
    unfold Castling_Rights.update
    rw [if_neg (by rw [hp]; decide), if_neg (by rw [hp]; decide), if_pos hp,
      if_neg (by rw [hc]; decide), if_pos hc]
    constructor
    · show ((cr.remove_rights ['Q']).castling_rights_string.data).contains 'Q' = false
      rw [remove_one_data]
      exact contains_filter_self _ _
    · intro s hsQ
      show ((cr.remove_rights ['Q']).castling_rights_string.data).contains s = cr.has_rights s
      rw [remove_one_data]
      exact contains_filter_other _ _ _ hsQ
  · intro hp hc
    unfold Castling_Rights.update
    rw [if_neg (by rw [hp]; decide), if_neg (by rw [hp]; decide), if_neg (by rw [hp]; decide),
      if_pos hp, if_pos hc]
    constructor
    · show ((cr.remove_rights ['k']).castling_rights_string.data).contains 'k' = false
      rw [remove_one_data]
      exact contains_filter_self _ _
    · intro s hsk
      show ((cr.remove_rights ['k']).castling_rights_string.data).contains s = cr.has_rights s
      rw [remove_one_data]
      exact contains_filter_other _ _ _ hsk
  · intro hp hc
    unfold Castling_Rights.update
    rw [if_neg (by rw [hp]; decide), if_neg (by rw [hp]; decide), if_neg (by rw [hp]; decide),
      if_pos hp, if_neg (by rw [hc]; decide), if_pos hc]
    constructor
    · show ((cr.remove_rights ['q']).castling_rights_string.data).contains 'q' = false
      rw [remove_one_data]
      exact contains_filter_self _ _
    · intro s hsq
      show ((cr.remove_rights ['q']).castling_rights_string.data).contains s = cr.has_rights s
      rw [remove_one_data]
      exact contains_filter_other _ _ _ hsq
  · exact make_legal_move_castling_rights_sublist b mv

/-- Witness for C8 at concrete inputs: updating full rights with a white
    king move clears both white rights, and a concrete make_legal_move
    leaves the rights string a subsequence of what it was. -/
theorem C8_castling_rights_never_grow_witness :
    ((Castling_Rights.make "KQkq").update { mBad with piece_moved := .wK }).has_rights 'K' = false ∧
    ((make_legal_move b5 mv5).castling_rights).castling_rights_string.data.Sublist
      (b5.castling_rights).castling_rights_string.data := by
  constructor
  · exact ((C8_castling_rights_never_grow (Castling_Rights.make "KQkq")
      { mBad with piece_moved := .wK } b5 mv5).1 rfl).1
  · exact (C8_castling_rights_never_grow (Castling_Rights.make "KQkq")
      mBad b5 mv5).2.2.2.2.2.2.2.2 ⟨by decide, by decide⟩

theorem digitChar_isDigit {n : Nat} (h : n < 10) : (digitChar n).isDigit = true := by
  interval_cases n <;> decide

theorem natDigitsAux_digits :
    ∀ (fuel n : Nat) (acc : List Char), (∀ c ∈ acc, c.isDigit = true) →
      ∀ c ∈ natDigitsAux fuel n acc, c.isDigit = true := by
  intro fuel
  induction fuel with
  | zero => intro n acc h; exact h
  | succ f ih =>
    intro n acc h c hc
    unfold natDigitsAux at hc
    split_ifs at hc with h10
    · rcases List.mem_cons.mp hc with h1 | h1
      · rw [h1]; exact digitChar_isDigit h10
      · exact h c h1
    · refine ih (n / 10) _ ?_ c hc
      intro d hd
      rcases List.mem_cons.mp hd with h1 | h1
      · rw [h1]; exact digitChar_isDigit (Nat.mod_lt _ (by omega))
      · exact h d h1

theorem natDigits_digits (n : Nat) : ∀ c ∈ natDigits n, c.isDigit = true :=
  natDigitsAux_digits (n + 1) n [] (by simp)

theorem natDigitsAux_ne_nil_of_acc :
    ∀ (fuel n : Nat) (acc : List Char), acc ≠ [] → natDigitsAux fuel n acc ≠ [] := by
  intro fuel
  induction fuel with
  | zero => intro n acc h; exact h
  | succ f ih =>
    intro n acc h
    unfold natDigitsAux
    split_ifs
    · simp
    · exact ih (n / 10) _ (by simp)

theorem natDigits_ne_nil (n : Nat) : natDigits n ≠ [] := by
  unfold natDigits natDigitsAux
  split_ifs
  · simp
  · exact natDigitsAux_ne_nil_of_acc _ _ _ (by simp)

theorem isDigit_ne_minus {c : Char} (h : c.isDigit = true) : c ≠ '-' := by
  intro he
  rw [he] at h
  exact absurd h (by decide)

theorem isDigit_ne_spc {c : Char} (h : c.isDigit = true) : c ≠ spc := by
  intro he
  rw [he] at h
  exact absurd h (by decide)

theorem isDigit_ne_slash {c : Char} (h : c.isDigit = true) : c ≠ '/' := by
  intro he
  rw [he] at h
  exact absurd h (by decide)

theorem intRepr_ne_nil (i : Int) : intRepr i ≠ [] := by
  unfold intRepr
  split_ifs
  · simp
  · exact natDigits_ne_nil _

theorem intRepr_chars (i : Int) : ∀ c ∈ intRepr i, c.isDigit = true ∨ c = '-' := by
  unfold intRepr
  split_ifs
  · intro c hc
    rcases List.mem_cons.mp hc with h1 | h1
    · exact Or.inr h1
    · exact Or.inl (natDigits_digits _ c h1)
  · exact fun c hc => Or.inl (natDigits_digits _ c hc)

theorem intRepr_no_spc (i : Int) : ∀ c ∈ intRepr i, c ≠ spc := by
  intro c hc
  rcases intRepr_chars i c hc with h | h
  · exact isDigit_ne_spc h
  · rw [h]; decide

theorem digitsValAux_isSome :
    ∀ (l : List Char), (∀ c ∈ l, c.isDigit = true) → ∀ acc, (digitsValAux l acc).isSome = true := by
  intro l
  induction l with
  | nil => intro _ acc; rfl
  | cons c t ih =>
    intro h acc
    unfold digitsValAux digToNat
    rw [if_pos (h c (by simp))]
    exact ih (fun d hd => h d (by simp [hd])) _

theorem pyInt_intRepr_isSome (i : Int) : (pyInt (intRepr i)).isSome = true := by
  unfold intRepr
  split_ifs with hneg
  · show (pyInt ('-' :: natDigits i.natAbs)).isSome = true
    simp only [pyInt, if_true]
    have hne := natDigits_ne_nil i.natAbs
    rcases hd : natDigits i.natAbs with _ | ⟨c, t⟩
    · exact absurd hd hne
    · have := digitsValAux_isSome (c :: t)
        (fun d hdm => by rw [← hd] at hdm; exact natDigits_digits _ d hdm) 0
      rcases ho : digitsValAux (c :: t) 0 with _ | v
      · rw [ho] at this; exact absurd this (by simp)
      · simp [ho]
  · rcases hd : natDigits i.toNat with _ | ⟨c, t⟩
    · exact absurd hd (natDigits_ne_nil _)
    · have hcd : c.isDigit = true := natDigits_digits _ c (by rw [hd]; simp)
      show (pyInt (c :: t)).isSome = true
      simp only [pyInt]
      rw [if_neg (isDigit_ne_minus hcd)]
      have := digitsValAux_isSome (c :: t)
        (fun d hdm => by rw [← hd] at hdm; exact natDigits_digits _ d hdm) 0
      rcases ho : digitsValAux (c :: t) 0 with _ | v
      · rw [ho] at this; exact absurd this (by simp)
      · simp [ho]

theorem piece_to_fen_chars {p : Piece} {c : Char} (h : c ∈ piece_to_fen p) :
    c ≠ '/' ∧ c ≠ spc ∧ c.isDigit = false := by
  cases p <;> simp [piece_to_fen] at h <;> subst h <;> exact ⟨by decide, by decide, by decide⟩

theorem piece_to_fen_ne_nil {p : Piece} (h : p ≠ .e) : piece_to_fen p ≠ [] := by
  cases p <;> first | exact absurd rfl h | simp [piece_to_fen]

theorem encRowAux_ok :
    ∀ (ps : List Piece) (k : Nat), ∀ c ∈ encRowAux ps k, c ≠ '/' ∧ c ≠ spc := by
  intro ps
  induction ps with
  | nil =>
    intro k c hc
    unfold encRowAux at hc
    split_ifs at hc
    · have := natDigits_digits k c hc
      exact ⟨isDigit_ne_slash this, isDigit_ne_spc this⟩
    · exact absurd hc (by simp)
  | cons p t ih =>
    intro k c hc
    unfold encRowAux at hc
    split_ifs at hc with hp hk0
    · exact ih (k + 1) c hc
    · rcases List.mem_append.mp hc with h1 | h1
      · rcases List.mem_append.mp h1 with h2 | h2
        · have := natDigits_digits k c h2
          exact ⟨isDigit_ne_slash this, isDigit_ne_spc this⟩
        · have := piece_to_fen_chars h2
          exact ⟨this.1, this.2.1⟩
      · exact ih 0 c h1
    · rcases List.mem_append.mp hc with h1 | h1
      · rcases List.mem_append.mp h1 with h2 | h2
        · exact absurd h2 (by simp)
        · have := piece_to_fen_chars h2
          exact ⟨this.1, this.2.1⟩
      · exact ih 0 c h1

theorem encRowAux_ne_nil :
    ∀ (ps : List Piece) (k : Nat), ps.length + k ≠ 0 → encRowAux ps k ≠ [] := by
  intro ps
  induction ps with
  | nil =>
    intro k hk
    unfold encRowAux
    rw [if_pos (by simpa using Nat.pos_of_ne_zero (by simpa using hk))]
    exact natDigits_ne_nil k
  | cons p t ih =>
    intro k _
    unfold encRowAux
    split_ifs with hp hk0
    · exact ih (k + 1) (by simp)
    all_goals
      intro hcon
      rcases List.append_eq_nil.mp hcon with ⟨h1, h2⟩
      rcases List.append_eq_nil.mp h1 with ⟨h3, h4⟩
      exact piece_to_fen_ne_nil hp h4

theorem natDigits_single {k : Nat} (h1 : 0 < k) (h2 : k ≤ 9) :
    natDigits k = [digitChar k] := by
  interval_cases k <;> rfl

theorem decRow_digit {k : Nat} (h1 : 0 < k) (h2 : k ≤ 9) (rest : List Char) :
    decRow (digitChar k :: rest) = List.replicate k .e ++ decRow rest := by
  interval_cases k <;> rfl

theorem decRow_piece {p : Piece} (hp : p ≠ .e) (rest : List Char) :
    decRow (piece_to_fen p ++ rest) = p :: decRow rest := by
  cases p <;> first | exact absurd rfl hp | rfl

theorem decRow_encRowAux :
    ∀ (ps : List Piece) (k : Nat), k + ps.length ≤ 9 →
      decRow (encRowAux ps k) = List.replicate k .e ++ ps := by
  intro ps
  induction ps with
  | nil =>
    intro k hk
    unfold encRowAux
    split_ifs with h
    · rw [natDigits_single h (by omega), decRow_digit h (by omega)]
      rfl
    · have : k = 0 := by omega
      subst this
      rfl
  | cons p t ih =>
    intro k hk
    unfold encRowAux
    split_ifs with hp h0
    · rw [ih (k + 1) (by simp at hk ⊢; omega)]
      subst hp
      rw [List.replicate_succ' k Piece.e]
      simp
    · rw [natDigits_single h0 (by simp at hk; omega)]
      show decRow (digitChar k :: (piece_to_fen p ++ encRowAux t 0)) =
        List.replicate k Piece.e ++ p :: t
      rw [decRow_digit h0 (by simp at hk; omega), decRow_piece hp, ih 0 (by simp at hk; omega)]
      simp
    · have : k = 0 := by omega
      subst this
      show decRow (piece_to_fen p ++ encRowAux t 0) = List.replicate 0 Piece.e ++ p :: t
      rw [decRow_piece hp, ih 0 (by simp at hk; omega)]
      rfl

theorem consHead_cons (c : Char) (h : List Char) (t : List (List Char)) :
    consHead c (h :: t) = (c :: h) :: t := rfl

theorem splitChar_no_sep (sep : Char) : ∀ l, sep ∉ l → splitChar sep l = [l] := by
  intro l
  induction l with
  | nil => intro h0; rfl
  | cons c t ih =>
    intro h
    have hc : ¬ c = sep := fun he => h (by simp [he])
    show (if c = sep then [] :: splitChar sep t else consHead c (splitChar sep t)) = [c :: t]
    rw [if_neg hc, ih (fun hm => h (by simp [hm])), consHead_cons]

theorem splitChar_append (sep : Char) :
    ∀ (p l : List Char), sep ∉ p →
      splitChar sep (p ++ sep :: l) = p :: splitChar sep l := by
  intro p
  induction p with
  | nil =>
    intro l h0
    show (if sep = sep then [] :: splitChar sep l else consHead sep (splitChar sep l)) =
      [] :: splitChar sep l
    rw [if_pos rfl]
  | cons c t ih =>
    intro l h
    have hc : ¬ c = sep := fun he => h (by simp [he])
    show (if c = sep then [] :: splitChar sep (t ++ sep :: l)
          else consHead c (splitChar sep (t ++ sep :: l))) = (c :: t) :: splitChar sep l
    rw [if_neg hc, ih l (fun hm => h (by simp [hm])), consHead_cons]

theorem splitChar_joinSep (sep : Char) :
    ∀ parts : List (List Char), parts ≠ [] → (∀ p ∈ parts, sep ∉ p) →
      splitChar sep (joinSep sep parts) = parts := by
  intro parts
  induction parts with
  | nil => intro h0 h1; exact absurd rfl h0
  | cons p rest ih =>
    intro h0 hparts
    rcases rest with _ | ⟨q, rest2⟩
    · show splitChar sep p = [p]
      exact splitChar_no_sep sep p (hparts p (by simp))
    · show splitChar sep (p ++ sep :: joinSep sep (q :: rest2)) = p :: (q :: rest2)
      rw [splitChar_append sep p (joinSep sep (q :: rest2)) (hparts p (by simp)),
        ih (by simp) (fun x hx => hparts x (by simp [hx]))]

theorem pySplitWs_skip (l : List Char) : pySplitWs (spc :: l) = pySplitWs l := by
  rcases l with _ | ⟨d, l2⟩ <;> rfl

theorem pySplitWs_single : ∀ w : List Char, w ≠ [] → spc ∉ w → pySplitWs w = [w] := by
  intro w
  induction w with
  | nil => intro h0 h1; exact absurd rfl h0
  | cons c t ih =>
    intro h0 h
    have hc : ¬ c = spc := fun he => h (by simp [he])
    rcases t with _ | ⟨c2, t2⟩
    · show (if c = spc then pySplitWs [] else [[c]]) = [[c]]
      rw [if_neg hc]
    · have hc2 : ¬ c2 = spc := fun he => h (by simp [he])
      show (if c = spc then pySplitWs (c2 :: t2)
            else if c2 = spc then [c] :: pySplitWs (c2 :: t2)
            else consHead c (pySplitWs (c2 :: t2))) = [c :: c2 :: t2]
      rw [if_neg hc, if_neg hc2, ih (by simp) (fun hm => h (by simp [hm])), consHead_cons]

theorem pySplitWs_word : ∀ (w l : List Char), w ≠ [] → spc ∉ w →
    pySplitWs (w ++ spc :: l) = w :: pySplitWs l := by
  intro w
  induction w with
  | nil => intro l h0 h1; exact absurd rfl h0
  | cons c t ih =>
    intro l h0 h
    have hc : ¬ c = spc := fun he => h (by simp [he])
    rcases t with _ | ⟨c2, t2⟩
    · show (if c = spc then pySplitWs (spc :: l)
            else if spc = spc then [c] :: pySplitWs (spc :: l)
            else consHead c (pySplitWs (spc :: l))) = [c] :: pySplitWs l
      rw [if_neg hc, if_pos rfl, pySplitWs_skip]
    · have hc2 : ¬ c2 = spc := fun he => h (by simp [he])
      show (if c = spc then pySplitWs (c2 :: (t2 ++ spc :: l))
            else if c2 = spc then [c] :: pySplitWs (c2 :: (t2 ++ spc :: l))
            else consHead c (pySplitWs (c2 :: (t2 ++ spc :: l)))) =
        (c :: c2 :: t2) :: pySplitWs l
      have ih2 : pySplitWs (c2 :: (t2 ++ spc :: l)) = (c2 :: t2) :: pySplitWs l :=
        ih l (by simp) (fun hm => h (by simp [hm]))
      rw [if_neg hc, if_neg hc2, ih2, consHead_cons]

theorem pySplitWs_joinSep :
    ∀ parts : List (List Char), (∀ p ∈ parts, p ≠ [] ∧ spc ∉ p) →
      pySplitWs (joinSep spc parts) = parts := by
  intro parts
  induction parts with
  | nil => intro h0; rfl
  | cons p rest ih =>
    intro h
    rcases rest with _ | ⟨q, rest2⟩
    · show pySplitWs p = [p]
      exact pySplitWs_single p (h p (by simp)).1 (h p (by simp)).2
    · show pySplitWs (p ++ spc :: joinSep spc (q :: rest2)) = p :: (q :: rest2)
      rw [pySplitWs_word p (joinSep spc (q :: rest2)) (h p (by simp)).1 (h p (by simp)).2,
        ih (fun x hx => h x (by simp [hx]))]

theorem joinSep_mem (sep : Char) :
    ∀ (parts : List (List Char)) (c : Char), c ∈ joinSep sep parts →
      c = sep ∨ ∃ p ∈ parts, c ∈ p := by
  intro parts
  induction parts with
  | nil => intro c hc; exact absurd hc (by simp [joinSep])
  | cons p rest ih =>
    intro c hc
    rcases rest with _ | ⟨q, rest2⟩
    · exact Or.inr ⟨p, by simp, hc⟩
    · have hc2 : c ∈ p ++ sep :: joinSep sep (q :: rest2) := hc
      rcases List.mem_append.mp hc2 with h1 | h1
      · exact Or.inr ⟨p, by simp, h1⟩
      · rcases List.mem_cons.mp h1 with h2 | h2
        · exact Or.inl h2
        · rcases ih c h2 with h3 | ⟨x, hx1, hx2⟩
          · exact Or.inl h3
          · exact Or.inr ⟨x, by simp [hx1], hx2⟩

theorem joinSep_ne_nil (sep : Char) :
    ∀ parts : List (List Char), parts ≠ [] → (∀ p ∈ parts, p ≠ []) →
      joinSep sep parts ≠ [] := by
  intro parts hne h
  rcases parts with _ | ⟨p, rest⟩
  · exact absurd rfl hne
  · rcases rest with _ | ⟨q, rest2⟩
    · exact h p (by simp)
    · show p ++ sep :: joinSep sep (q :: rest2) ≠ []
      simp

theorem file_map_ne_spc (i : Int) : file_map i ≠ spc := by
  unfold file_map
  split_ifs <;> decide

theorem rank_map_ne_spc (i : Int) : rank_map i ≠ spc := by
  unfold rank_map
  split_ifs <;> decide

theorem encEp_ne_nil (o : Option (Int × Int)) : encEp o ≠ [] := by
  rcases o with _ | ⟨r, c⟩ <;> simp [encEp]

theorem encEp_no_spc (o : Option (Int × Int)) : ∀ c ∈ encEp o, c ≠ spc := by
  rcases o with _ | ⟨r, c0⟩
  · intro c hc
    rcases List.mem_singleton.mp hc with rfl
    decide
  · intro c hc
    rcases List.mem_cons.mp hc with h | h
    · rw [h]
      exact file_map_ne_spc c0
    · rcases List.mem_singleton.mp h with rfl
      exact rank_map_ne_spc r

theorem string_eta (s : String) : String.mk s.data = s := rfl

theorem parse_ep_encEp_some (r c : Int) (h1 : 0 ≤ r) (h2 : r ≤ 7) (h3 : 0 ≤ c) (h4 : c ≤ 7) :
    parse_ep (encEp (some (r, c))) = some (some (r, c)) := by
  show parse_ep [file_map c, rank_map r] = some (some (r, c))
  interval_cases r <;> interval_cases c <;> decide

theorem map_decRow_encRow :
    ∀ l : List (List Piece), (∀ row ∈ l, row.length = 8) →
      (l.map encRow).map decRow = l := by
  intro l
  induction l with
  | nil => intro h0; rfl
  | cons a t ih =>
    intro h
    have h2 : decRow (encRow a) = List.replicate 0 Piece.e ++ a :=
      decRow_encRowAux a 0 (by have := h a (by simp); omega)
    have h3 : decRow (encRow a) = a := by simpa using h2
    simp only [List.map_cons]
    rw [h3, ih (fun x hx => h x (by simp [hx]))]

theorem fen_to_board_parts (fen : String) (p0 p1 p2 p3 p4 p5 : List Char)
    (ep : Option (Int × Int)) (n4 n5 : Int)
    (h : pySplitWs fen.data = [p0, p1, p2, p3, p4, p5])
    (hep : parse_ep p3 = some ep) (h4 : pyInt p4 = some n4) (h5 : pyInt p5 = some n5) :
    fen_to_board fen =
      some ((splitChar '/' p0).map decRow, decide (p1 = ['w']),
        Castling_Rights.make (String.mk p2), ep, n4, n5) := by
  unfold fen_to_board
  rw [h]
  show (parse_ep p3).bind (fun ept =>
      (pyInt p4).bind (fun hm =>
        (pyInt p5).bind (fun fm =>
          some ((splitChar '/' p0).map decRow, decide (p1 = ['w']),
            Castling_Rights.make (String.mk p2), ept, hm, fm)))) = _
  rw [hep, h4, h5]
  rfl

/-- Counterexample to claim C4 as stated: the Board bC4x whose castling-rights
    string is empty encodes its rights as '-', and decoding the resulting FEN
    yields a castling-rights value carrying the string "-", not the original
    empty string - the castling rights are not reproduced exactly. -/
theorem C4_counterexample_empty_rights_not_reproduced :
    fen_to_board (board_to_fen bC4x) =
      some (bC4x.board_array, bC4x.white_to_move, Castling_Rights.make "-",
        bC4x.en_passant_square, 0, 1) ∧
    Castling_Rights.make "-" ≠
      Castling_Rights.make bC4x.castling_rights.castling_rights_string := by
  exact ⟨by decide, by decide⟩

/-- Claim C4 (amended): restricted to Boards with an 8x8 grid, a nonempty
    castling-rights string drawn from the letters K Q k q, and an in-range
    (or absent) en-passant target, decoding the FEN produced by board_to_fen
    reproduces the grid (empty runs compressed to digits and decompressed
    back), the side to move, the castling-rights string (as a freshly
    initialised Castling_Rights) and the en-passant target exactly, and the
    two clock fields parse to integers. -/
theorem C4_fen_round_trip (b : Board)
    (hrows : b.board_array.length = 8)
    (hcols : ∀ row ∈ b.board_array, row.length = 8)
    (hcr1 : b.castling_rights.castling_rights_string.data ≠ [])
    (hcr2 : ∀ c ∈ b.castling_rights.castling_rights_string.data, c ∈ ['K', 'Q', 'k', 'q'])
    (hep : ∀ r c : Int, b.en_passant_square = some (r, c) →
      0 ≤ r ∧ r ≤ 7 ∧ 0 ≤ c ∧ c ≤ 7) :
    ∃ hc fm, fen_to_board (board_to_fen b) =
      some (b.board_array, b.white_to_move,
        Castling_Rights.make b.castling_rights.castling_rights_string,
        b.en_passant_square, hc, fm) := by
  have hs0 : b.castling_rights.castling_rights_string ≠ "" := by
    intro he
    exact hcr1 (by rw [he])
  have hstr : Castling_Rights.str b.castling_rights =
      b.castling_rights.castling_rights_string := by
    unfold Castling_Rights.str
    rw [if_pos hs0]
  have hrowne : ∀ q ∈ b.board_array.map encRow, q ≠ [] := by
    intro q hq
    rcases List.mem_map.mp hq with ⟨row, hrow, rfl⟩
    exact encRowAux_ne_nil row 0 (by have := hcols row hrow; omega)
  have hmapne : b.board_array.map encRow ≠ [] := by
    intro hc0
    have hlen : b.board_array.length = 0 := by simpa using congrArg List.length hc0
    omega
  have hslash : ∀ q ∈ b.board_array.map encRow, '/' ∉ q := by
    intro q hq hin
    rcases List.mem_map.mp hq with ⟨row, hrow, rfl⟩
    exact absurd rfl (encRowAux_ok row 0 '/' hin).1
  have hsplit : pySplitWs (board_to_fen b).data =
      [joinSep '/' (b.board_array.map encRow),
       if b.white_to_move then ['w'] else ['b'],
       (Castling_Rights.str b.castling_rights).data,
       encEp b.en_passant_square,
       intRepr (Int.floor b.halfmove_clock),
       intRepr b.fullmove_number] := by
    show pySplitWs (joinSep spc
      [joinSep '/' (b.board_array.map encRow),
       if b.white_to_move then ['w'] else ['b'],
       (Castling_Rights.str b.castling_rights).data,
       encEp b.en_passant_square,
       intRepr (Int.floor b.halfmove_clock),
       intRepr b.fullmove_number]) = _
    apply pySplitWs_joinSep
    intro p hp
    simp only [List.mem_cons, List.not_mem_nil, or_false] at hp
    rcases hp with rfl | rfl | rfl | rfl | rfl | rfl
    · constructor
      · exact joinSep_ne_nil '/' (b.board_array.map encRow) hmapne hrowne
      · intro hin
        rcases joinSep_mem '/' (b.board_array.map encRow) spc hin with h | ⟨q, hq1, hq2⟩
        · exact absurd h (by decide)
        · rcases List.mem_map.mp hq1 with ⟨row, hrow, rfl⟩
          exact absurd rfl (encRowAux_ok row 0 spc hq2).2
    · split_ifs <;> exact ⟨by decide, by decide⟩
    · rw [hstr]
      refine ⟨hcr1, ?_⟩
      intro hin
      exact absurd (hcr2 spc hin) (by decide)
    · exact ⟨encEp_ne_nil b.en_passant_square,
        fun hin => encEp_no_spc b.en_passant_square spc hin rfl⟩
    · exact ⟨intRepr_ne_nil (Int.floor b.halfmove_clock),
        fun hin => intRepr_no_spc (Int.floor b.halfmove_clock) spc hin rfl⟩
    · exact ⟨intRepr_ne_nil b.fullmove_number,
        fun hin => intRepr_no_spc b.fullmove_number spc hin rfl⟩
  have hepq : parse_ep (encEp b.en_passant_square) = some b.en_passant_square := by
    rcases hepc : b.en_passant_square with _ | ⟨r, c⟩
    · rfl
    · obtain ⟨h1, h2, h3, h4⟩ := hep r c hepc
      exact parse_ep_encEp_some r c h1 h2 h3 h4
  obtain ⟨v4, hv4⟩ :=
    Option.isSome_iff_exists.mp (pyInt_intRepr_isSome (Int.floor b.halfmove_clock))
  obtain ⟨v5, hv5⟩ := Option.isSome_iff_exists.mp (pyInt_intRepr_isSome b.fullmove_number)
  refine ⟨v4, v5, ?_⟩
  rw [fen_to_board_parts (board_to_fen b)
      (joinSep '/' (b.board_array.map encRow))
      (if b.white_to_move then ['w'] else ['b'])
      ((Castling_Rights.str b.castling_rights).data)
      (encEp b.en_passant_square)
      (intRepr (Int.floor b.halfmove_clock))
      (intRepr b.fullmove_number)
      b.en_passant_square v4 v5 hsplit hepq hv4 hv5]
  rw [splitChar_joinSep '/' (b.board_array.map encRow) hmapne hslash,
    map_decRow_encRow b.board_array hcols, hstr, string_eta]
  cases hw : b.white_to_move <;> rfl

/-- Witness for C4 at a concrete input: the initial-position Board literal
    bC4w (full castling rights, en-passant target e6) satisfies the grid
    hypothesis and its FEN round trip reproduces grid, side to move,
    castling rights and en-passant target. -/
theorem C4_fen_round_trip_witness :
    bC4w.board_array.length = 8 ∧
    (∃ hc fm, fen_to_board (board_to_fen bC4w) =
      some (bC4w.board_array, bC4w.white_to_move,
        Castling_Rights.make bC4w.castling_rights.castling_rights_string,
        bC4w.en_passant_square, hc, fm)) :=
  ⟨by decide,
   C4_fen_round_trip bC4w (by decide) (by decide) (by decide) (by decide)
     (by
       intro r c h
       rw [show bC4w.en_passant_square = some ((2 : Int), (4 : Int)) from rfl] at h
       simp only [Option.some.injEq, Prod.mk.injEq] at h
       obtain ⟨rfl, rfl⟩ := h
       exact ⟨by decide, by decide, by decide, by decide⟩)⟩

end Chess
